import Mathlib

/-!
Verification of the slack-log2md conversion core.

The development shallow-embeds the repository's sources:
* `src/lib/markdown.ts` — the text transformer `createBody` and the renderer
  `messagesToMarkdown`;
* `src/lib/log2md.ts` — the aggregator (`isIgnore`, the per-file and the
  same-UTC-day conversions, the index page) and the JSON readers
  (`readArrayFromJSON`, `readChannels`, `readUsers`, `readMessages`).

Modules of the repository that are not present in its `src` snapshot
(`metadata.ts`, `channel.ts`, `user.ts`, `message.ts`) are modelled from the
specification; each such definition carries a doc comment starting with
"Modelled from the spec".

Strings are treated as their character lists; JavaScript string ordering is
modelled on UTF-16 code units; JavaScript `Map` objects are modelled as
insertion-ordered association lists.
-/

namespace Slack

/-- Channel entity: `{ id, name }` (spec §3, channel module). -/
structure Channel where
  id : String
  name : String
deriving DecidableEq

/-- User entity: id, account name, optional display name and avatar URL;
an empty string stands for an absent optional field (spec §3, user module). -/
structure User where
  id : String
  name : String
  displayName : String
  avatarURL : String
deriving DecidableEq

/-- Message entity as parsed from a raw record (spec §3, message module):
optional author id, raw body, epoch timestamp in seconds (with sub-second
precision, hence a rational), optional subtype. -/
structure Message where
  userID : Option String
  text : String
  timeStamp : ℚ
  subtype : Option String
deriving DecidableEq

/-- Lookup in a JavaScript `Map` modelled as an insertion-ordered association
list: `Map.get` returns the value of the (unique) entry with the key. -/
def mapGet {α : Type} : List (String × α) → String → Option α
  | [], _ => none
  | (k, v) :: rest, key => if k = key then some v else mapGet rest key

/-- Update in a JavaScript `Map` modelled as an insertion-ordered association
list: `Map.set` overwrites the value in place if the key is present and
appends a new entry otherwise. -/
def mapSet {α : Type} : List (String × α) → String → α → List (String × α)
  | [], k, v => [(k, v)]
  | (k', v') :: rest, k, v =>
    if k' = k then (k, v) :: rest else (k', v') :: mapSet rest k v

/-- Lazy capture of the JavaScript regular expressions in `createBody`
(`<@(.*?)>` and `<#(.*?)>`): after the two-character opener, the capture is
everything up to the first closing angle bracket; the dot of the pattern does
not match a newline, so a newline before any closing bracket makes the match
fail, as does the end of the input. -/
def takeCapture : List Char → Option (List Char × List Char)
  | [] => none
  | c :: rest =>
    if c = '>' then some ([], rest)
    else if c = '\n' then none
    else (takeCapture rest).map (fun p => (c :: p.1, p.2))

/-- Global regex replacement for a pattern of the shape `<T(.*?)>` with
trigger character `T`, as performed by `String.prototype.replace` with the
`g` flag: scan left to right, replace every match by `repl` applied to the
capture (the replacement text is not rescanned), copy unmatched characters
verbatim, and resume after each match.  The first argument is fuel; the
callers always supply the length of the scanned list, which is sufficient
because every step consumes at least one character. -/
def replaceTokens (trigger : Char) (repl : List Char → List Char) :
    Nat → List Char → List Char
  | 0, l => l
  | _ + 1, [] => []
  | fuel + 1, c :: rest =>
    if c = '<' then
      match rest with
      | [] => ['<']
      | t :: rest2 =>
        if t = trigger then
          match takeCapture rest2 with
          | some (cap, rest3) => repl cap ++ replaceTokens trigger repl fuel rest3
          | none => '<' :: t :: replaceTokens trigger repl fuel rest2
        else '<' :: replaceTokens trigger repl fuel rest
    else c :: replaceTokens trigger repl fuel rest

/-- Replacement text of the user-mention pass of `createBody`
(markdown.ts lines 22–29): if the captured id resolves in the user map, the
row's `username` argument (the message sender's resolved name) is wrapped as
inline code with an `@` prefix; otherwise the raw captured id is wrapped. -/
def mentionText (users : List (String × User)) (username : String)
    (cap : List Char) : List Char :=
  match mapGet users (String.mk cap) with
  | some _ => ('`' :: '@' :: username.data) ++ ['`']
  | none => ('`' :: '@' :: cap) ++ ['`']

/-- Replacement text of the channel-reference pass of `createBody`
(markdown.ts lines 32–39): a resolved id becomes the channel's name wrapped
as inline code with a `#` prefix; an unresolved id falls back to the raw id
wrapped as inline code with an `@` prefix. -/
def channelText (channels : List (String × Channel)) (cap : List Char) :
    List Char :=
  match mapGet channels (String.mk cap) with
  | some channel => ('`' :: '#' :: channel.name.data) ++ ['`']
  | none => ('`' :: '@' :: cap) ++ ['`']

/-- Newline pass of `createBody` (markdown.ts line 42): every raw newline
becomes a `<br>` tag. -/
def replaceNewlines : List Char → List Char
  | [] => []
  | c :: rest =>
    if c = '\n' then '<' :: 'b' :: 'r' :: '>' :: replaceNewlines rest
    else c :: replaceNewlines rest

/-- Body transformer `createBody` of markdown.ts (lines 13–45): the mention
pass, then the channel-reference pass over its output, then the newline
pass.  `username` is the sender's resolved display name, exactly as passed
by `messagesToMarkdown`. -/
def createBody (message : Message) (username : String)
    (channels : List (String × Channel)) (users : List (String × User)) :
    String :=
  let b0 := message.text.data
  let b1 := replaceTokens '@' (mentionText users username) b0.length b0
  let b2 := replaceTokens '#' (channelText channels) b1.length b1
  String.mk (replaceNewlines b2)

/-- Two-digit zero padding of a number, as used in dates and times. -/
def pad2 (n : Nat) : String :=
  if n < 10 then "0" ++ toString n else toString n

/-- Four-digit zero padding of a year number. -/
def pad4 (n : Nat) : String :=
  if n < 10 then "000" ++ toString n
  else if n < 100 then "00" ++ toString n
  else if n < 1000 then "0" ++ toString n
  else toString n

/-- Modelled from the spec: the proleptic-Gregorian civil date
`(year, month, day)` of a day count since the Unix epoch, the date arithmetic
hidden in the repository's metadata module (absent from `src`); the standard
era-based algorithm, valid for the nonnegative timestamps of an export. -/
def civilFromDays (days : Nat) : Nat × Nat × Nat :=
  let z := days + 719468
  let era := z / 146097
  let doe := z % 146097
  let yoe := (doe - doe / 1460 + doe / 36524 - doe / 146096) / 365
  let y := yoe + era * 400
  let doy := doe - (365 * yoe + yoe / 4 - yoe / 100)
  let mp := (5 * doy + 2) / 153
  let d := doy - (153 * mp + 2) / 5 + 1
  let m := if mp < 10 then mp + 3 else mp - 9
  (if m ≤ 2 then y + 1 else y, m, d)

/-- Modelled from the spec: the UTC calendar date of a message timestamp,
`tsToDate` composed with the day extraction of `formatDate` (metadata module,
absent from `src`); the whole seconds are taken first, then the day count —
equal to flooring `ts / 86400` directly. -/
def utcDay (ts : ℚ) : Nat × Nat × Nat :=
  civilFromDays ((Rat.floor ts).toNat / 86400)

/-- Modelled from the spec: `formatDate(tsToDate(ts), 'YYYY-MM-DD', true)` of
log2md.ts line 197 — the UTC date key of a message (metadata module, absent
from `src`). -/
def dateKey (ts : ℚ) : String :=
  let c := utcDay ts
  pad4 c.1 ++ "-" ++ pad2 c.2.1 ++ "-" ++ pad2 c.2.2

/-- Modelled from the spec: the zero-padded 24-hour UTC `HH:MM` rendering of
a timestamp, truncated to the minute (metadata module, absent from `src`). -/
def formatTime (ts : ℚ) : String :=
  let total := (Rat.floor ts).toNat % 86400
  pad2 (total / 3600) ++ ":" ++ pad2 (total % 3600 / 60)

/-- Resolved per-message display attributes (spec §3, `ResolvedMetadata`). -/
structure MessageMetadata where
  time : String
  imageURL : String
  username : String
deriving DecidableEq

/-- Modelled from the spec: the metadata resolver of the repository's
metadata module (absent from `src`): `time` is the UTC `HH:MM`, `username`
prefers the resolved user's display name, then the account name, then the
raw referenced id (empty for an absent id), and `imageURL` is the avatar URL
or the empty string; the resolver never fails. -/
def getMetadata (message : Message) (users : List (String × User)) :
    MessageMetadata :=
  match message.userID with
  | none =>
    { time := formatTime message.timeStamp, imageURL := "", username := "" }
  | some uid =>
    match mapGet users uid with
    | some user =>
      { time := formatTime message.timeStamp
        imageURL := user.avatarURL
        username := if user.displayName = "" then user.name
          else user.displayName }
    | none =>
      { time := formatTime message.timeStamp, imageURL := "", username := uid }

/-- One table row of the renderer (markdown.ts lines 62–66): metadata is
resolved, an empty image URL yields an empty icon cell and a non-empty one an
image tag, and the transformed body closes the row. -/
def messageRow (message : Message) (channels : List (String × Channel))
    (users : List (String × User)) : String :=
  let meta := getMetadata message users
  let image := if meta.imageURL = "" then ""
    else "![](" ++ meta.imageURL ++ ")"
  let body := createBody message meta.username channels users
  "|" ++ meta.time ++ "|" ++ image ++ "|" ++ meta.username ++ "|" ++ body
    ++ "|\n"

/-- Renderer `messagesToMarkdown` of markdown.ts (lines 56–70): rows are
accumulated over the messages in input order, starting from the empty
string. -/
def messagesToMarkdown (messages : List Message)
    (channels : List (String × Channel)) (users : List (String × User)) :
    String :=
  messages.foldl (fun md m => md ++ messageRow m channels users) ""

/-- Ignore option of log2md.ts (`IgnoreMessage`, normalized to a boolean by
`checkIgnoreOption`). -/
structure IgnoreMessage where
  channelLogin : Bool
deriving DecidableEq

/-- Predicate `isIgnore` of log2md.ts (lines 159–165): with the
channel-login option set, exactly the messages of subtype `channel_join` are
ignored; otherwise nothing is. -/
def isIgnore (message : Message) (ignore : IgnoreMessage) : Bool :=
  if ignore.channelLogin then message.subtype == some "channel_join"
  else false

/-- Per-group document of both conversion paths (log2md.ts lines 212 and
268): a level-1 heading with the group name, a blank line, then the rendered
table. -/
def groupDocument (logName : String) (messages : List Message)
    (channels : List (String × Channel)) (users : List (String × User)) :
    String :=
  "# " ++ logName ++ "\n\n" ++ messagesToMarkdown messages channels users

/-- UTF-16 code units of a character, for JavaScript string comparison. -/
def utf16Units (c : Char) : List Nat :=
  if c.toNat < 65536 then [c.toNat]
  else [55296 + (c.toNat - 65536) / 1024, 56320 + (c.toNat - 65536) % 1024]

/-- Lexicographic order on code-unit lists. -/
def unitsLt : List Nat → List Nat → Bool
  | [], [] => false
  | [], _ :: _ => true
  | _ :: _, [] => false
  | a :: as, b :: bs =>
    if a < b then true else if b < a then false else unitsLt as bs

/-- JavaScript string comparison `a < b`: lexicographic on UTF-16 code
units. -/
def jsLt (a b : String) : Bool :=
  unitsLt (a.data.flatMap utf16Units) (b.data.flatMap utf16Units)

/-- One step of a stable descending insertion sort by a string key, modelling
`Array.prototype.sort` with the comparator
`(a, b) => (a === b ? 0 : a < b ? 1 : -1)` of log2md.ts lines 221 and
253–255. -/
def insertDescBy {α : Type} (key : α → String) (x : α) :
    List α → List α
  | [] => [x]
  | y :: ys => if jsLt (key y) (key x) then x :: y :: ys
    else y :: insertDescBy key x ys

/-- Stable descending sort by a string key (JavaScript comparator above). -/
def sortDescBy {α : Type} (key : α → String) (l : List α) : List α :=
  l.foldr (insertDescBy key) []

/-- Descending sort of plain strings. -/
def sortDesc (l : List String) : List String :=
  sortDescBy id l

/-- Group name of a message file, `path.basename(filePath, '.json')` of
log2md.ts line 267: the `.json` suffix is stripped when present. -/
def stem (name : String) : String :=
  if ".json".data.isSuffixOf name.data then
    String.mk (name.data.take (name.data.length - 5))
  else name

/-- Markdown link line of the channel index (log2md.ts lines 223 and 272). -/
def indexLink (n : String) : String :=
  "- [" ++ n ++ "](./" ++ n ++ ".md)\n"

/-- Messages of one file that survive the ignore filter (log2md.ts lines
259–261). -/
def keptOf (messages : List Message) (ignore : IgnoreMessage) :
    List Message :=
  messages.filter (fun m => !(isIgnore m ignore))

/-- Per-file grouping of `convertChannelMessages` (log2md.ts lines 240–273):
the channel's message files (name × parsed messages, all in one directory)
are sorted by descending file name, each is filtered, files left empty are
skipped, and each remaining file yields a group named by its stem. -/
def fileGroups (files : List (String × List Message))
    (ignore : IgnoreMessage) : List (String × List Message) :=
  (sortDescBy Prod.fst files).filterMap (fun f =>
    let kept := keptOf f.2 ignore
    if kept.isEmpty then none else some (stem f.1, kept))

/-- Insertion of a message into the date-keyed accumulator of
`convertChannelMessagesSameDay` (log2md.ts lines 197–203): an existing
group's list is extended in place, a fresh date is appended at the end,
following `Map` insertion order. -/
def addMessage : List (String × List Message) → String → Message →
    List (String × List Message)
  | [], d, m => [(d, [m])]
  | (k, v) :: rest, d, m =>
    if k = d then (k, v ++ [m]) :: rest
    else (k, v) :: addMessage rest d m

/-- Accumulation of one file's messages into the date-keyed groups, skipping
ignored messages (log2md.ts lines 190–205). -/
def addFileMessages (ignore : IgnoreMessage)
    (logs : List (String × List Message)) (messages : List Message) :
    List (String × List Message) :=
  messages.foldl (fun logs m =>
    if isIgnore m ignore then logs
    else addMessage logs (dateKey m.timeStamp) m) logs

/-- Same-UTC-day grouping of `convertChannelMessagesSameDay` (log2md.ts
lines 187–205): all files of the channel are pooled, in enumeration order,
into groups keyed by the UTC date of each message. -/
def dayGroups (files : List (String × List Message))
    (ignore : IgnoreMessage) : List (String × List Message) :=
  files.foldl (fun logs f => addFileMessages ignore logs f.2) []

/-- Documents written by the per-file conversion, one per non-empty group
(log2md.ts lines 266–270): file name with the `.md` extension and full
content. -/
def perFileDocs (files : List (String × List Message))
    (ignore : IgnoreMessage) (channels : List (String × Channel))
    (users : List (String × User)) : List (String × String) :=
  (fileGroups files ignore).map (fun g =>
    (g.1 ++ ".md", groupDocument g.1 g.2 channels users))

/-- Documents written by the same-day conversion, one per date group
(log2md.ts lines 208–217). -/
def sameDayDocs (files : List (String × List Message))
    (ignore : IgnoreMessage) (channels : List (String × Channel))
    (users : List (String × User)) : List (String × String) :=
  (dayGroups files ignore).map (fun g =>
    (g.1 ++ ".md", groupDocument g.1 g.2 channels users))

/-- Link accumulation of the index pages, the `indexMd +=` loops of
log2md.ts (lines 222–224 and 258–273). -/
def indexMarkdown (names : List String) : String :=
  names.foldl (fun md n => md ++ indexLink n) ""

/-- Channel index page of the per-file conversion (log2md.ts lines 257–279):
one link per emitted document, accumulated in emission order (descending
file-name order), written only when at least one link was accumulated, with
the channel directory's base name as the heading. -/
def perFileIndex (srcBase : String) (files : List (String × List Message))
    (ignore : IgnoreMessage) : Option (String × String) :=
  let indexMd := indexMarkdown ((fileGroups files ignore).map Prod.fst)
  if indexMd = "" then none
  else some ("index.md", "# " ++ srcBase ++ "\n\n" ++ indexMd)

/-- Channel index page of the same-day conversion (log2md.ts lines
219–229): the emitted group names are sorted descending, one link each, and
the page is written only when non-empty. -/
def sameDayIndex (srcBase : String) (files : List (String × List Message))
    (ignore : IgnoreMessage) : Option (String × String) :=
  let names := sortDesc ((dayGroups files ignore).map Prod.fst)
  let indexMd := indexMarkdown names
  if indexMd = "" then none
  else some ("index.md", "# " ++ srcBase ++ "\n\n" ++ indexMd)

/-- All messages of a channel's files, for membership statements. -/
def inputMessages (files : List (String × List Message)) : List Message :=
  files.flatMap Prod.snd

/-- Raw JSON record of the export, with every field the entity parsers may
read; an absent field is `none` (spec §4.1; the concrete export field names
are opaque here). -/
structure RawRecord where
  id : Option String
  name : Option String
  displayName : Option String
  avatarURL : Option String
  user : Option String
  ts : Option ℚ
  text : Option String
  subtype : Option String
deriving DecidableEq

/-- Parsed JSON content of one file, as far as `readArrayFromJSON` inspects
it: either an array of raw records or anything else. -/
inductive JsonData where
  | array : List RawRecord → JsonData
  | notArray : JsonData
deriving DecidableEq

/-- File system visible to the readers: paths mapped to the parsed JSON of
existing files; a missing path models `fs.existsSync` returning false. -/
def FileSystem : Type := List (String × JsonData)

/-- Path join `path.join(dir, name)` for the forward-slash layouts the tool
reads. -/
def joinPath (dir name : String) : String :=
  dir ++ "/" ++ name

/-- Reader `readArrayFromJSON` of log2md.ts (lines 89–100): a missing file
and a non-array JSON value both raise; otherwise the array is returned. -/
def readArrayFromJSON (fs : FileSystem) (filePath : String) :
    Except String (List RawRecord) :=
  match mapGet fs filePath with
  | none => Except.error ("File does not exist. \"" ++ filePath ++ "\"")
  | some (JsonData.array values) => Except.ok values
  | some JsonData.notArray => Except.error "Data is not an array."

/-- Modelled from the spec: entity parser of the channel module (absent from
`src`): `id` and `name` are required, anything else is ignored. -/
def parseChannel (r : RawRecord) : Except String Channel :=
  match r.id, r.name with
  | some id, some name => Except.ok { id := id, name := name }
  | _, _ => Except.error "MalformedRecordError: channel"

/-- Modelled from the spec: entity parser of the user module (absent from
`src`): `id` and `name` are required, display name and avatar URL default to
the empty string. -/
def parseUser (r : RawRecord) : Except String User :=
  match r.id, r.name with
  | some id, some name =>
    Except.ok { id := id, name := name,
                displayName := r.displayName.getD "",
                avatarURL := r.avatarURL.getD "" }
  | _, _ => Except.error "MalformedRecordError: user"

/-- Modelled from the spec: entity parser of the message module (absent from
`src`): timestamp and text are required, author id and subtype are
optional. -/
def parseMessage (r : RawRecord) : Except String Message :=
  match r.ts, r.text with
  | some ts, some text =>
    Except.ok { userID := r.user, text := text, timeStamp := ts,
                subtype := r.subtype }
  | _, _ => Except.error "MalformedRecordError: message"

/-- Entity-map accumulation loop shared by `readChannels` and `readUsers`
(log2md.ts lines 113–116 and 130–133): each record is parsed and stored
under its id with `Map.set`; a parse failure aborts the whole read. -/
def buildEntities {α : Type} (parse : RawRecord → Except String α)
    (key : α → String) : List RawRecord → List (String × α) →
    Except String (List (String × α))
  | [], acc => Except.ok acc
  | v :: rest, acc =>
    (parse v).bind (fun e => buildEntities parse key rest (mapSet acc (key e) e))

/-- Reader `readChannels` of log2md.ts (lines 107–119). -/
def readChannels (fs : FileSystem) (dir : String) :
    Except String (List (String × Channel)) :=
  (readArrayFromJSON fs (joinPath dir "channels.json")).bind
    (fun values => buildEntities parseChannel Channel.id values [])

/-- Reader `readUsers` of log2md.ts (lines 126–136). -/
def readUsers (fs : FileSystem) (dir : String) :
    Except String (List (String × User)) :=
  (readArrayFromJSON fs (joinPath dir "users.json")).bind
    (fun values => buildEntities parseUser User.id values [])

/-- Sequential parse of a record list, failing on the first malformed
record (the loop of `readMessages`). -/
def parseAllRecords {α : Type} (parse : RawRecord → Except String α) :
    List RawRecord → Except String (List α)
  | [] => Except.ok []
  | v :: rest =>
    (parse v).bind (fun e =>
      (parseAllRecords parse rest).bind (fun es => Except.ok (e :: es)))

/-- Reader `readMessages` of log2md.ts (lines 143–151): every record of the
file's array is parsed in order. -/
def readMessages (fs : FileSystem) (filePath : String) :
    Except String (List Message) :=
  (readArrayFromJSON fs filePath).bind
    (fun values => parseAllRecords parseMessage values)

/-- Entity with the given id coming last in a list, the record that a
`Map.set` loop leaves in the map. -/
def lastWith {α : Type} (key : α → String) (id : String) :
    List α → Option α
  | [] => none
  | e :: rest =>
    match lastWith key id rest with
    | some x => some x
    | none => if key e = id then some e else none

/-- Map built from a list of entities by `Map.set` under their ids, the
normal form of the reader loops. -/
def buildFold {α : Type} (key : α → String) (es : List α) :
    List (String × α) :=
  es.foldl (fun a e => mapSet a (key e) e) []

/-- Concrete workspace whose `channels.json` and `users.json` each hold two
records sharing one id. -/
def dupRec (i n : String) : RawRecord :=
  { id := some i, name := some n, displayName := none, avatarURL := none,
    user := none, ts := none, text := none, subtype := none }

/-- Concrete file system for the reader witnesses: a duplicate-id workspace
plus one non-array message file. -/
def fs10 : FileSystem :=
  [("w/channels.json",
    JsonData.array [dupRec "C1" "general", dupRec "C1" "random"]),
   ("w/users.json", JsonData.array [dupRec "U1" "alice", dupRec "U1" "bob"]),
   ("p", JsonData.notArray)]

/-- Channels parsed from the duplicate-id workspace, in input order. -/
def cs10 : List Channel :=
  [{ id := "C1", name := "general" }, { id := "C1", name := "random" }]

/-- Users parsed from the duplicate-id workspace, in input order. -/
def us10 : List User :=
  [{ id := "U1", name := "alice", displayName := "", avatarURL := "" },
   { id := "U1", name := "bob", displayName := "", avatarURL := "" }]

/-- Concrete resolvable channel for the channel-reference witness. -/
def chW : Channel :=
  { id := "C1", name := "general" }

/-- Concrete channel mapping holding only `chW`. -/
def channelsW : List (String × Channel) :=
  [("C1", chW)]

/-- Concrete channel-join message used as a witness input. -/
def joinMsg : Message :=
  { userID := none, text := "joined", timeStamp := 0,
    subtype := some "channel_join" }

/-- Concrete one-file channel containing only the channel-join message. -/
def joinFiles : List (String × List Message) :=
  [("a.json", [joinMsg])]

/-- Ignore option with the channel-login filter enabled. -/
def igTrue : IgnoreMessage :=
  { channelLogin := true }

/-- Ignore option with the channel-login filter disabled. -/
def igFalse : IgnoreMessage :=
  { channelLogin := false }

/-- Concrete message in file `a.json`, morning of the epoch day. -/
def mA5 : Message :=
  { userID := none, text := "a", timeStamp := 100, subtype := none }

/-- Concrete message in file `b.json`, same UTC day as `mA5`. -/
def mB5 : Message :=
  { userID := none, text := "b", timeStamp := 200, subtype := none }

/-- Concrete two-file channel whose messages share one UTC day. -/
def files5 : List (String × List Message) :=
  [("a.json", [mA5]), ("b.json", [mB5])]

/-- Test whether the first list starts the second. -/
def seqStarts : List Char → List Char → Bool
  | [], _ => true
  | _ :: _, [] => false
  | p :: ps, c :: cs => p = c && seqStarts ps cs

/-- Test whether the first list occurs contiguously inside the second. -/
def containsSeq (pat : List Char) : List Char → Bool
  | [] => pat.isEmpty
  | c :: rest => seqStarts pat (c :: rest) || containsSeq pat rest

/-- C1: the claim requires a resolved mention `<@id>` to render the
mentioned user's display name, independent of the sender; the code
(markdown.ts line 25) instead substitutes the sender's resolved `username`.
With user `U1` (display name `alicia`) in the map, the body `<@U1>` renders
the sender name `bob` — and renders `carol` for a sender named `carol` — not
`alicia`. -/
theorem mention_resolution_uses_sender_bug :
    createBody
        { userID := some "U2", text := "<@U1>", timeStamp := 0,
          subtype := none } "bob" []
        [("U1",
          { id := "U1", name := "alice", displayName := "alicia",
            avatarURL := "" })] = String.mk ['`', '@', 'b', 'o', 'b', '`']
    ∧ createBody
        { userID := some "U2", text := "<@U1>", timeStamp := 0,
          subtype := none } "carol" []
        [("U1",
          { id := "U1", name := "alice", displayName := "alicia",
            avatarURL := "" })] =
        String.mk ['`', '@', 'c', 'a', 'r', 'o', 'l', '`']
    ∧ String.mk ['`', '@', 'b', 'o', 'b', '`'] ≠
        String.mk ['`', '@', 'a', 'l', 'i', 'c', 'i', 'a', '`'] := by
  refine ⟨by decide, by decide, by decide⟩

/-- C2: the claim (and the README's sample output) requires every per-group
document to contain the two-line table header after the heading and blank
line; the code (log2md.ts lines 212 and 268 with markdown.ts lines 56–70)
writes the heading, a blank line, and then the rows directly — the header
occurs nowhere in the document. -/
theorem group_document_lacks_table_header :
    groupDocument "1970-01-01"
        [{ userID := some "U1", text := "hi", timeStamp := 60,
           subtype := none }] []
        [("U1",
          { id := "U1", name := "alice", displayName := "",
            avatarURL := "http://e/a.png" })] =
      "# 1970-01-01\n\n|00:01|![](http://e/a.png)|alice|hi|\n"
    ∧ containsSeq "|Time|Icon|Name|Message|".data
        "# 1970-01-01\n\n|00:01|![](http://e/a.png)|alice|hi|\n".data =
      false := by
  refine ⟨by decide, by decide⟩

/-- C3: the claim requires recognized emoji shortcodes such as `:smile:` to
be replaced by their Unicode characters (as the README documents); the text
transformer of markdown.ts (lines 13–45) performs no emoji substitution at
all, so every shortcode is left verbatim. -/
theorem emoji_shortcode_left_verbatim :
    createBody
        { userID := none, text := "See :smile: and :flag-gb:",
          timeStamp := 0, subtype := none } "bob" [] [] =
      "See :smile: and :flag-gb:" := by
  decide

/-- C4 counterexample: for an unresolvable channel reference the code
(markdown.ts line 38) falls back to the raw id wrapped in inline code but
with the mention prefix `@`, not the channel prefix `#` the claim states. -/
theorem channel_fallback_prefix_cex :
    createBody
        { userID := none, text := "<#C9>", timeStamp := 0, subtype := none }
        "bob" [] [] = String.mk ['`', '@', 'C', '9', '`']
    ∧ String.mk ['`', '@', 'C', '9', '`'] ≠
        String.mk ['`', '#', 'C', '9', '`'] := by
  refine ⟨by decide, by decide⟩

/-- C7 counterexample: the per-file conversion sorts the source file names
(with their `.json` suffix) rather than the group names, so with files
`2019-10.json` and `2019.json` the index lists `2019` before `2019-10`,
although descending lexical order of the group names is `2019-10`, `2019`. -/
theorem index_order_cex :
    perFileIndex "general"
        [("2019-10.json",
          [{ userID := none, text := "b", timeStamp := 60,
             subtype := none }]),
         ("2019.json",
          [{ userID := none, text := "a", timeStamp := 60,
             subtype := none }])] { channelLogin := false } =
      some ("index.md", "# general\n\n- [2019](./2019.md)\n- [2019-10](./2019-10.md)\n")
    ∧ (fileGroups
        [("2019-10.json",
          [{ userID := none, text := "b", timeStamp := 60,
             subtype := none }]),
         ("2019.json",
          [{ userID := none, text := "a", timeStamp := 60,
             subtype := none }])] { channelLogin := false }).map Prod.fst =
      ["2019", "2019-10"]
    ∧ sortDesc ["2019", "2019-10"] = ["2019-10", "2019"]
    ∧ (["2019", "2019-10"] : List String) ≠ ["2019-10", "2019"] := by
  refine ⟨by decide, by decide, by decide, by decide⟩

/-- Concatenation of a list of strings, the normal form of the `+=`
accumulation loops. -/
def concatRows : List String → String
  | [] => ""
  | s :: rest => s ++ concatRows rest

theorem foldl_append_concat {α : Type} (row : α → String) :
    ∀ (l : List α) (s : String),
      l.foldl (fun md x => md ++ row x) s = s ++ concatRows (l.map row) := by
  intro l
  induction l with
  | nil => intro s; simp [concatRows]
  | cons x rest ih =>
    intro s
    simp only [List.foldl_cons, List.map_cons, concatRows]
    rw [ih, String.append_assoc]

theorem messagesToMarkdown_eq_concat (messages : List Message)
    (channels : List (String × Channel)) (users : List (String × User)) :
    messagesToMarkdown messages channels users =
      concatRows (messages.map (fun m => messageRow m channels users)) := by
  unfold messagesToMarkdown
  rw [foldl_append_concat, String.empty_append]

/-- C6: the renderer emits exactly one newline-terminated row per message,
in input order, of the shape `|time|icon|username|body|`; the icon cell is
an image tag exactly when the resolved image URL is non-empty and the empty
string otherwise; the empty message list renders to the empty string. -/
theorem renderer_row_shape :
    ∀ (messages : List Message) (channels : List (String × Channel))
      (users : List (String × User)),
      messagesToMarkdown messages channels users =
        concatRows (messages.map (fun m => messageRow m channels users))
      ∧ messagesToMarkdown [] channels users = ""
      ∧ ∀ m : Message,
          messageRow m channels users =
            "|" ++ (getMetadata m users).time ++ "|" ++
              (if (getMetadata m users).imageURL = "" then ""
               else "![](" ++ (getMetadata m users).imageURL ++ ")") ++
              "|" ++ (getMetadata m users).username ++ "|" ++
              createBody m (getMetadata m users).username channels users ++
              "|\n" := by
  intro messages channels users
  refine ⟨messagesToMarkdown_eq_concat messages channels users, rfl,
    fun m => rfl⟩

theorem indexMarkdown_eq_concat (names : List String) :
    indexMarkdown names = concatRows (names.map indexLink) := by
  unfold indexMarkdown
  rw [foldl_append_concat, String.empty_append]

theorem length_insertDescBy {α : Type} (key : α → String) (x : α)
    (l : List α) : (insertDescBy key x l).length = l.length + 1 := by
  induction l with
  | nil => rfl
  | cons y ys ih =>
    unfold insertDescBy
    by_cases hc : jsLt (key y) (key x) = true
    · simp [hc]
    · simp only [Bool.not_eq_true] at hc
      simp [hc, ih]

theorem length_sortDescBy {α : Type} (key : α → String) (l : List α) :
    (sortDescBy key l).length = l.length := by
  unfold sortDescBy
  induction l with
  | nil => rfl
  | cons x xs ih =>
    simp only [List.foldr_cons]
    rw [length_insertDescBy, ih]
    simp

theorem mem_insertDescBy {α : Type} (key : α → String) (x y : α)
    (l : List α) : y ∈ insertDescBy key x l ↔ y = x ∨ y ∈ l := by
  induction l with
  | nil => simp [insertDescBy]
  | cons z zs ih =>
    unfold insertDescBy
    by_cases hc : jsLt (key z) (key x) = true
    · simp only [hc, if_true, List.mem_cons]
    · simp only [Bool.not_eq_true] at hc
      simp only [hc, Bool.false_eq_true, if_false, List.mem_cons, ih]
      tauto

theorem mem_sortDescBy {α : Type} (key : α → String) (x : α) (l : List α) :
    x ∈ sortDescBy key l ↔ x ∈ l := by
  unfold sortDescBy
  induction l with
  | nil => simp
  | cons z zs ih =>
    simp only [List.foldr_cons]
    rw [mem_insertDescBy, ih]
    simp

theorem indexMarkdown_eq_empty_iff (names : List String) :
    indexMarkdown names = "" ↔ names = [] := by
  cases names with
  | nil => simp [indexMarkdown]
  | cons n rest =>
    simp only [indexMarkdown_eq_concat, List.map_cons, concatRows]
    constructor
    · intro h
      exfalso
      have hd := congrArg String.data h
      rw [String.data_append] at hd
      have hlink : (indexLink n).data = "- [".data ++ (n ++ "](./" ++ n ++ ".md)\n").data := by
        unfold indexLink
        simp [String.data_append, String.append_assoc]
      rw [hlink] at hd
      simp at hd
    · intro h
      exact absurd h (List.cons_ne_nil n rest)

/-- C7 (amended): for either grouping mode the channel index page is written
exactly when at least one per-group document was emitted; when written, it
consists of a level-1 heading equal to the channel directory's base name, a
blank line, and one Markdown link per emitted document; in the same-day mode
the links follow descending lexical order of the group names, while the
per-file mode keeps its emission order, which is descending lexical order of
the source file names (`.json` suffix included). -/
theorem index_document_shape :
    ∀ (base : String) (files : List (String × List Message))
      (ignore : IgnoreMessage) (channels : List (String × Channel))
      (users : List (String × User)),
      perFileIndex base files ignore =
        (if perFileDocs files ignore channels users = [] then none
         else some ("index.md",
           "# " ++ base ++ "\n\n" ++
             concatRows (((fileGroups files ignore).map Prod.fst).map
               indexLink)))
      ∧ sameDayIndex base files ignore =
        (if sameDayDocs files ignore channels users = [] then none
         else some ("index.md",
           "# " ++ base ++ "\n\n" ++
             concatRows ((sortDesc ((dayGroups files ignore).map
               Prod.fst)).map indexLink))) := by
  intro base files ignore channels users
  constructor
  · unfold perFileIndex perFileDocs
    cases h : fileGroups files ignore with
    | nil => simp [indexMarkdown]
    | cons g rest =>
      have hne : indexMarkdown (g.1 :: rest.map Prod.fst) ≠ "" := by
        intro hcontra
        rw [indexMarkdown_eq_empty_iff] at hcontra
        simp at hcontra
      simp only [List.map_cons]
      rw [if_neg hne, if_neg (by simp)]
      rw [indexMarkdown_eq_concat]
      simp
  · unfold sameDayIndex sameDayDocs
    cases h : dayGroups files ignore with
    | nil => simp [indexMarkdown, sortDesc, sortDescBy]
    | cons g rest =>
      have hnames : sortDesc (g.1 :: rest.map Prod.fst) ≠ [] := by
        intro hcontra
        have hlen := congrArg List.length hcontra
        rw [sortDesc, length_sortDescBy] at hlen
        simp at hlen
      have hne : indexMarkdown (sortDesc (g.1 :: rest.map Prod.fst)) ≠ "" := by
        intro hcontra
        rw [indexMarkdown_eq_empty_iff] at hcontra
        exact hnames hcontra
      simp only [List.map_cons]
      rw [if_neg hne, if_neg (by simp)]
      rw [indexMarkdown_eq_concat]

theorem mapGet_addMessage_same (logs : List (String × List Message))
    (d : String) (m : Message) :
    mapGet (addMessage logs d m) d = some ((mapGet logs d).getD [] ++ [m]) := by
  induction logs with
  | nil => simp [addMessage, mapGet]
  | cons p rest ih =>
    obtain ⟨k, v⟩ := p
    unfold addMessage
    by_cases hk : k = d
    · simp [mapGet, hk]
    · simp [mapGet, hk, ih]

theorem mapGet_addMessage_other (logs : List (String × List Message))
    (d d' : String) (m : Message) (h : d' ≠ d) :
    mapGet (addMessage logs d m) d' = mapGet logs d' := by
  have hne : d ≠ d' := fun hh => h (Eq.symm hh)
  induction logs with
  | nil =>
    simp only [addMessage, mapGet]
    rw [if_neg hne]
  | cons p rest ih =>
    obtain ⟨k, v⟩ := p
    unfold addMessage
    by_cases hk : k = d
    · subst hk
      simp only [if_true]
      unfold mapGet
      rw [if_neg hne, if_neg hne]
    · rw [if_neg hk]
      unfold mapGet
      by_cases hk' : k = d'
      · rw [if_pos hk', if_pos hk']
      · rw [if_neg hk', if_neg hk']
        exact ih

theorem mem_getD_addMessage (logs : List (String × List Message))
    (k d : String) (m m' : Message)
    (h : m ∈ (mapGet logs k).getD []) :
    m ∈ (mapGet (addMessage logs d m') k).getD [] := by
  by_cases hk : k = d
  · subst hk
    rw [mapGet_addMessage_same]
    simp only [Option.getD_some, List.mem_append]
    exact Or.inl h
  · rw [mapGet_addMessage_other logs d k m' hk]
    exact h

theorem mem_getD_addFileMessages (ignore : IgnoreMessage) :
    ∀ (messages : List Message) (logs : List (String × List Message))
      (k : String) (m : Message), m ∈ (mapGet logs k).getD [] →
      m ∈ (mapGet (addFileMessages ignore logs messages) k).getD [] := by
  intro messages
  induction messages with
  | nil => intro logs k m h; exact h
  | cons x rest ih =>
    intro logs k m h
    unfold addFileMessages
    simp only [List.foldl_cons]
    by_cases hx : isIgnore x ignore = true
    · simp only [hx, if_true]
      exact ih logs k m h
    · simp only [Bool.not_eq_true] at hx
      simp only [hx, Bool.false_eq_true, if_false]
      exact ih _ k m (mem_getD_addMessage logs k _ m x h)

theorem mem_getD_addFileMessages_self (ignore : IgnoreMessage) :
    ∀ (messages : List Message) (logs : List (String × List Message))
      (m : Message), m ∈ messages → isIgnore m ignore = false →
      m ∈ (mapGet (addFileMessages ignore logs messages)
        (dateKey m.timeStamp)).getD [] := by
  intro messages
  induction messages with
  | nil => intro logs m h; simp at h
  | cons x rest ih =>
    intro logs m hmem hkeep
    unfold addFileMessages
    simp only [List.foldl_cons]
    rcases List.mem_cons.mp hmem with heq | htail
    · subst heq
      simp only [hkeep, Bool.false_eq_true, if_false]
      apply mem_getD_addFileMessages
      rw [mapGet_addMessage_same]
      simp
    · by_cases hx : isIgnore x ignore = true
      · simp only [hx, if_true]
        exact ih logs m htail hkeep
      · simp only [Bool.not_eq_true] at hx
        simp only [hx, Bool.false_eq_true, if_false]
        exact ih _ m htail hkeep

theorem mem_getD_foldFiles (ignore : IgnoreMessage) :
    ∀ (files : List (String × List Message))
      (logs : List (String × List Message)) (k : String) (m : Message),
      m ∈ (mapGet logs k).getD [] →
      m ∈ (mapGet (files.foldl
        (fun logs f => addFileMessages ignore logs f.2) logs) k).getD [] := by
  intro files
  induction files with
  | nil => intro logs k m h; exact h
  | cons p rest ih =>
    intro logs k m h
    simp only [List.foldl_cons]
    exact ih _ k m (mem_getD_addFileMessages ignore p.2 logs k m h)

theorem mem_getD_dayGroups (ignore : IgnoreMessage) :
    ∀ (files : List (String × List Message)) (f : String)
      (msgs : List Message) (m : Message), (f, msgs) ∈ files → m ∈ msgs →
      isIgnore m ignore = false →
      m ∈ (mapGet (dayGroups files ignore) (dateKey m.timeStamp)).getD [] := by
  have main : ∀ (files : List (String × List Message))
      (logs : List (String × List Message)) (f : String)
      (msgs : List Message) (m : Message), (f, msgs) ∈ files → m ∈ msgs →
      isIgnore m ignore = false →
      m ∈ (mapGet (files.foldl
        (fun logs f => addFileMessages ignore logs f.2) logs)
        (dateKey m.timeStamp)).getD [] := by
    intro files
    induction files with
    | nil => intro logs f msgs m h; simp at h
    | cons p rest ih =>
      intro logs f msgs m hmem hin hkeep
      simp only [List.foldl_cons]
      rcases List.mem_cons.mp hmem with heq | htail
      · subst heq
        exact mem_getD_foldFiles ignore rest _ _ m
          (mem_getD_addFileMessages_self ignore msgs logs m hin hkeep)
      · exact ih _ f msgs m htail hin hkeep
  intro files f msgs m hmem hin hkeep
  exact main files [] f msgs m hmem hin hkeep

theorem mapGet_some_mem {α : Type} :
    ∀ (l : List (String × α)) (k : String) (v : α),
      mapGet l k = some v → (k, v) ∈ l := by
  intro l
  induction l with
  | nil => intro k v h; simp [mapGet] at h
  | cons p rest ih =>
    intro k v h
    obtain ⟨k', v'⟩ := p
    unfold mapGet at h
    by_cases hk : k' = k
    · subst hk
      simp only [if_true] at h
      cases h
      exact List.mem_cons_self _ _
    · simp only [hk, if_false] at h
      exact List.mem_cons_of_mem _ (ih k v h)

theorem sound_addMessage (P : Message → Prop)
    (logs : List (String × List Message)) (d : String) (m : Message)
    (hlogs : ∀ g ∈ logs, ∀ x ∈ g.2, P x) (hm : P m) :
    ∀ g ∈ addMessage logs d m, ∀ x ∈ g.2, P x := by
  induction logs with
  | nil =>
    intro g hg x hx
    simp only [addMessage, List.mem_singleton] at hg
    subst hg
    simp only [List.mem_singleton] at hx
    subst hx
    exact hm
  | cons p rest ih =>
    obtain ⟨k, v⟩ := p
    unfold addMessage
    by_cases hk : k = d
    · rw [if_pos hk]
      intro g hg x hx
      rcases List.mem_cons.mp hg with heq | htail
      · subst heq
        rcases List.mem_append.mp hx with hv | hsing
        · exact hlogs (k, v) (List.mem_cons_self _ _) x hv
        · simp only [List.mem_singleton] at hsing
          subst hsing
          exact hm
      · exact hlogs g (List.mem_cons_of_mem _ htail) x hx
    · rw [if_neg hk]
      intro g hg x hx
      rcases List.mem_cons.mp hg with heq | htail
      · subst heq
        exact hlogs (k, v) (List.mem_cons_self _ _) x hx
      · exact ih (fun g hg => hlogs g (List.mem_cons_of_mem _ hg)) g htail x hx

theorem sound_addFileMessages (ignore : IgnoreMessage) :
    ∀ (messages : List Message) (logs : List (String × List Message)),
      (∀ g ∈ logs, ∀ x ∈ g.2, isIgnore x ignore = false) →
      ∀ g ∈ addFileMessages ignore logs messages, ∀ x ∈ g.2,
        isIgnore x ignore = false := by
  intro messages
  induction messages with
  | nil => intro logs hlogs; exact hlogs
  | cons y rest ih =>
    intro logs hlogs
    unfold addFileMessages
    simp only [List.foldl_cons]
    by_cases hy : isIgnore y ignore = true
    · simp only [hy, if_true]
      exact ih logs hlogs
    · simp only [Bool.not_eq_true] at hy
      simp only [hy, Bool.false_eq_true, if_false]
      exact ih _ (sound_addMessage _ logs _ y hlogs hy)

theorem sound_dayGroups (ignore : IgnoreMessage)
    (files : List (String × List Message)) :
    ∀ g ∈ dayGroups files ignore, ∀ x ∈ g.2, isIgnore x ignore = false := by
  have main : ∀ (fs : List (String × List Message))
      (logs : List (String × List Message)),
      (∀ g ∈ logs, ∀ x ∈ g.2, isIgnore x ignore = false) →
      ∀ g ∈ fs.foldl (fun logs f => addFileMessages ignore logs f.2) logs,
        ∀ x ∈ g.2, isIgnore x ignore = false := by
    intro fs
    induction fs with
    | nil => intro logs hlogs; exact hlogs
    | cons p rest ih =>
      intro logs hlogs
      simp only [List.foldl_cons]
      exact ih _ (sound_addFileMessages ignore p.2 logs hlogs)
  exact main files [] (by intro g hg; simp at hg)

theorem sound_fileGroups (ignore : IgnoreMessage)
    (files : List (String × List Message)) :
    ∀ g ∈ fileGroups files ignore, ∀ x ∈ g.2, isIgnore x ignore = false := by
  intro g hg x hx
  rcases List.mem_filterMap.mp hg with ⟨f, _, hfg⟩
  simp only at hfg
  by_cases hke : (keptOf f.2 ignore).isEmpty = true
  · rw [if_pos hke] at hfg
    cases hfg
  · rw [if_neg hke] at hfg
    cases hfg
    have := List.mem_filter.mp hx
    have hb := this.2
    rw [Bool.not_eq_true'] at hb
    exact hb

theorem mem_fileGroups (files : List (String × List Message))
    (ignore : IgnoreMessage) (f : String) (msgs : List Message)
    (hf : (f, msgs) ∈ files) (hne : keptOf msgs ignore ≠ []) :
    (stem f, keptOf msgs ignore) ∈ fileGroups files ignore := by
  unfold fileGroups
  apply List.mem_filterMap.mpr
  refine ⟨(f, msgs), (mem_sortDescBy Prod.fst _ _).mpr hf, ?_⟩
  simp only
  rw [if_neg (by rw [List.isEmpty_iff]; exact hne)]

/-- C8: a message of subtype `channel_join` survives into the converted
output (either grouping mode) exactly when `ignore.channelLogin` is false,
and a message of any other subtype (or none) always survives: `isIgnore`
holds exactly for channel-join messages under the option, and a message of
the channel's files belongs to some emitted group if and only if `isIgnore`
rejects it in neither mode. -/
theorem channel_join_ignore_policy :
    ∀ (files : List (String × List Message)) (ignore : IgnoreMessage)
      (m : Message), m ∈ inputMessages files →
      ((isIgnore m ignore = true) ↔
        (ignore.channelLogin = true ∧ m.subtype = some "channel_join"))
      ∧ ((∃ g, g ∈ dayGroups files ignore ∧ m ∈ g.2) ↔
          isIgnore m ignore = false)
      ∧ ((∃ g, g ∈ fileGroups files ignore ∧ m ∈ g.2) ↔
          isIgnore m ignore = false) := by
  intro files ignore m hm
  obtain ⟨f, hf, hmf⟩ := List.mem_flatMap.mp hm
  refine ⟨?_, ⟨?_, ?_⟩, ?_, ?_⟩
  · unfold isIgnore
    cases hcl : ignore.channelLogin
    · simp
    · simp [beq_iff_eq]
  · rintro ⟨g, hg, hx⟩
    exact sound_dayGroups ignore files g hg m hx
  · intro hkeep
    have hmem := mem_getD_dayGroups ignore files f.1 f.2 m hf hmf hkeep
    cases hmg : mapGet (dayGroups files ignore) (dateKey m.timeStamp) with
    | none => rw [hmg] at hmem; simp at hmem
    | some v =>
      rw [hmg] at hmem
      simp only [Option.getD_some] at hmem
      exact ⟨(dateKey m.timeStamp, v),
        mapGet_some_mem _ _ _ hmg, hmem⟩
  · rintro ⟨g, hg, hx⟩
    exact sound_fileGroups ignore files g hg m hx
  · intro hkeep
    have hmkept : m ∈ keptOf f.2 ignore := by
      apply List.mem_filter.mpr
      exact ⟨hmf, by rw [Bool.not_eq_true', hkeep]⟩
    exact ⟨(stem f.1, keptOf f.2 ignore),
      mem_fileGroups files ignore f.1 f.2 hf (List.ne_nil_of_mem hmkept),
      hmkept⟩

/-- C8 witness: the characterization applied to a concrete channel-join
message in a one-file channel with the filter enabled. -/
theorem channel_join_ignore_policy_witness :
    joinMsg ∈ inputMessages joinFiles
    ∧ (((isIgnore joinMsg igTrue = true) ↔
        (igTrue.channelLogin = true ∧ joinMsg.subtype = some "channel_join"))
      ∧ ((∃ g, g ∈ dayGroups joinFiles igTrue ∧ joinMsg ∈ g.2) ↔
          isIgnore joinMsg igTrue = false)
      ∧ ((∃ g, g ∈ fileGroups joinFiles igTrue ∧ joinMsg ∈ g.2) ↔
          isIgnore joinMsg igTrue = false)) :=
  ⟨by decide,
   channel_join_ignore_policy joinFiles igTrue joinMsg (by decide)⟩

theorem stem_json_inj (f1 f2 : String)
    (h1 : ".json".data.isSuffixOf f1.data = true)
    (h2 : ".json".data.isSuffixOf f2.data = true) (hne : f1 ≠ f2) :
    stem f1 ≠ stem f2 := by
  obtain ⟨t1, ht1⟩ := List.isSuffixOf_iff_suffix.mp h1
  obtain ⟨t2, ht2⟩ := List.isSuffixOf_iff_suffix.mp h2
  unfold stem
  rw [if_pos h1, if_pos h2]
  intro hcontra
  injection hcontra with hdata
  have hl1 : f1.data.length - 5 = t1.length := by
    rw [← ht1, List.length_append]
    simp [String.data]
  have hl2 : f2.data.length - 5 = t2.length := by
    rw [← ht2, List.length_append]
    simp [String.data]
  rw [hl1, ← ht1, List.take_left] at hdata
  rw [hl2, ← ht2, List.take_left] at hdata
  apply hne
  apply String.ext
  rw [← ht1, ← ht2, hdata]

theorem strAppend_ne_of_ne (s t u : String) (h : s ≠ t) :
    s ++ u ≠ t ++ u := by
  intro hcontra
  apply h
  apply String.ext
  have := congrArg String.data hcontra
  rw [String.data_append, String.data_append] at this
  exact List.append_cancel_right this

/-- C5: two non-ignored messages with timestamps on the same UTC calendar
day coming from two different source files of one channel are placed by the
same-day conversion into one and the same output document, named by that
date, while the per-file conversion places them into two distinct documents,
one per source file. -/
theorem grouping_modes_same_day :
    ∀ (files : List (String × List Message)) (ignore : IgnoreMessage)
      (channels : List (String × Channel)) (users : List (String × User))
      (f1 f2 : String) (msgs1 msgs2 : List Message) (m1 m2 : Message),
      (f1, msgs1) ∈ files → (f2, msgs2) ∈ files → f1 ≠ f2 →
      ".json".data.isSuffixOf f1.data = true →
      ".json".data.isSuffixOf f2.data = true →
      m1 ∈ msgs1 → m2 ∈ msgs2 →
      isIgnore m1 ignore = false → isIgnore m2 ignore = false →
      utcDay m1.timeStamp = utcDay m2.timeStamp →
      (∃ v, mapGet (dayGroups files ignore) (dateKey m1.timeStamp) = some v ∧
        m1 ∈ v ∧ m2 ∈ v ∧
        (dateKey m1.timeStamp ++ ".md",
          groupDocument (dateKey m1.timeStamp) v channels users) ∈
          sameDayDocs files ignore channels users)
      ∧ (stem f1 ++ ".md",
          groupDocument (stem f1) (keptOf msgs1 ignore) channels users) ∈
          perFileDocs files ignore channels users
      ∧ m1 ∈ keptOf msgs1 ignore
      ∧ (stem f2 ++ ".md",
          groupDocument (stem f2) (keptOf msgs2 ignore) channels users) ∈
          perFileDocs files ignore channels users
      ∧ m2 ∈ keptOf msgs2 ignore
      ∧ stem f1 ++ ".md" ≠ stem f2 ++ ".md" := by
  intro files ignore channels users f1 f2 msgs1 msgs2 m1 m2
  intro hf1 hf2 hfne hsuf1 hsuf2 hm1 hm2 hkeep1 hkeep2 hday
  have hkey : dateKey m2.timeStamp = dateKey m1.timeStamp := by
    unfold dateKey
    rw [hday]
  have hmem1 := mem_getD_dayGroups ignore files f1 msgs1 m1 hf1 hm1 hkeep1
  have hmem2 := mem_getD_dayGroups ignore files f2 msgs2 m2 hf2 hm2 hkeep2
  rw [hkey] at hmem2
  have hkept1 : m1 ∈ keptOf msgs1 ignore :=
    List.mem_filter.mpr ⟨hm1, by rw [Bool.not_eq_true', hkeep1]⟩
  have hkept2 : m2 ∈ keptOf msgs2 ignore :=
    List.mem_filter.mpr ⟨hm2, by rw [Bool.not_eq_true', hkeep2]⟩
  refine ⟨?_, ?_, hkept1, ?_, hkept2, ?_⟩
  · cases hmg : mapGet (dayGroups files ignore) (dateKey m1.timeStamp) with
    | none =>
      rw [hmg] at hmem1
      simp at hmem1
    | some v =>
      rw [hmg] at hmem1 hmem2
      simp only [Option.getD_some] at hmem1 hmem2
      refine ⟨v, rfl, hmem1, hmem2, ?_⟩
      apply List.mem_map.mpr
      exact ⟨(dateKey m1.timeStamp, v), mapGet_some_mem _ _ _ hmg, rfl⟩
  · apply List.mem_map.mpr
    exact ⟨(stem f1, keptOf msgs1 ignore),
      mem_fileGroups files ignore f1 msgs1 hf1 (List.ne_nil_of_mem hkept1),
      rfl⟩
  · apply List.mem_map.mpr
    exact ⟨(stem f2, keptOf msgs2 ignore),
      mem_fileGroups files ignore f2 msgs2 hf2 (List.ne_nil_of_mem hkept2),
      rfl⟩
  · exact strAppend_ne_of_ne _ _ _ (stem_json_inj f1 f2 hsuf1 hsuf2 hfne)

set_option maxRecDepth 10000 in
/-- C5 witness: the grouping dichotomy applied to a concrete channel of two
files whose single messages share the epoch UTC day. -/
theorem grouping_modes_same_day_witness :
    (("a.json", [mA5]) ∈ files5 ∧ ("b.json", [mB5]) ∈ files5 ∧
      ("a.json" : String) ≠ "b.json" ∧
      ".json".data.isSuffixOf ("a.json" : String).data = true ∧
      ".json".data.isSuffixOf ("b.json" : String).data = true ∧
      mA5 ∈ [mA5] ∧ mB5 ∈ [mB5] ∧
      isIgnore mA5 igFalse = false ∧ isIgnore mB5 igFalse = false ∧
      utcDay mA5.timeStamp = utcDay mB5.timeStamp)
    ∧ ((∃ v, mapGet (dayGroups files5 igFalse) (dateKey mA5.timeStamp) =
          some v ∧ mA5 ∈ v ∧ mB5 ∈ v ∧
          (dateKey mA5.timeStamp ++ ".md",
            groupDocument (dateKey mA5.timeStamp) v [] []) ∈
            sameDayDocs files5 igFalse [] [])
      ∧ (stem "a.json" ++ ".md",
          groupDocument (stem "a.json") (keptOf [mA5] igFalse) [] []) ∈
          perFileDocs files5 igFalse [] []
      ∧ mA5 ∈ keptOf [mA5] igFalse
      ∧ (stem "b.json" ++ ".md",
          groupDocument (stem "b.json") (keptOf [mB5] igFalse) [] []) ∈
          perFileDocs files5 igFalse [] []
      ∧ mB5 ∈ keptOf [mB5] igFalse
      ∧ stem "a.json" ++ ".md" ≠ stem "b.json" ++ ".md") :=
  ⟨⟨by decide, by decide, by decide, by decide, by decide, by decide,
    by decide, by decide, by decide, by decide⟩,
   grouping_modes_same_day files5 igFalse [] [] "a.json" "b.json" [mA5] [mB5]
     mA5 mB5 (by decide) (by decide) (by decide) (by decide) (by decide)
     (by decide) (by decide) (by decide) (by decide) (by decide)⟩

/-- C9: a workspace whose `channels.json` (respectively `users.json`) does
not exist makes `readChannels` (respectively `readUsers`) fail with an error
instead of producing any mapping, and a message file whose JSON content is
not an array makes `readMessages` fail. -/
theorem missing_metadata_files_error :
    ∀ (fs : FileSystem) (dir p : String),
      (mapGet fs (joinPath dir "channels.json") = none →
        readChannels fs dir = Except.error
          ("File does not exist. \"" ++ joinPath dir "channels.json" ++ "\""))
      ∧ (mapGet fs (joinPath dir "users.json") = none →
        readUsers fs dir = Except.error
          ("File does not exist. \"" ++ joinPath dir "users.json" ++ "\""))
      ∧ (mapGet fs p = some JsonData.notArray →
        readMessages fs p = Except.error "Data is not an array.") := by
  intro fs dir p
  refine ⟨?_, ?_, ?_⟩
  · intro h
    unfold readChannels readArrayFromJSON
    rw [h]
    rfl
  · intro h
    unfold readUsers readArrayFromJSON
    rw [h]
    rfl
  · intro h
    unfold readMessages readArrayFromJSON
    rw [h]
    rfl

/-- C9 witness: the reader failures on a concrete workspace directory
lacking both metadata files, and on a concrete non-array message file. -/
theorem missing_metadata_files_error_witness :
    mapGet fs10 (joinPath "x" "channels.json") = none
    ∧ mapGet fs10 (joinPath "x" "users.json") = none
    ∧ mapGet fs10 "p" = some JsonData.notArray
    ∧ readChannels fs10 "x" = Except.error
        ("File does not exist. \"" ++ joinPath "x" "channels.json" ++ "\"")
    ∧ readUsers fs10 "x" = Except.error
        ("File does not exist. \"" ++ joinPath "x" "users.json" ++ "\"")
    ∧ readMessages fs10 "p" = Except.error "Data is not an array." :=
  ⟨by decide, by decide, by decide,
   (missing_metadata_files_error fs10 "x" "p").1 (by decide),
   (missing_metadata_files_error fs10 "x" "p").2.1 (by decide),
   (missing_metadata_files_error fs10 "x" "p").2.2 (by decide)⟩

theorem mapGet_mapSet_same {α : Type} :
    ∀ (m : List (String × α)) (k : String) (v : α),
      mapGet (mapSet m k v) k = some v := by
  intro m
  induction m with
  | nil => intro k v; simp [mapSet, mapGet]
  | cons p rest ih =>
    intro k v
    obtain ⟨k', v'⟩ := p
    unfold mapSet
    by_cases hk : k' = k
    · rw [if_pos hk]
      simp [mapGet]
    · rw [if_neg hk]
      unfold mapGet
      rw [if_neg hk]
      exact ih k v

theorem mapGet_mapSet_other {α : Type} :
    ∀ (m : List (String × α)) (k k' : String) (v : α), k' ≠ k →
      mapGet (mapSet m k v) k' = mapGet m k' := by
  intro m
  induction m with
  | nil =>
    intro k k' v h
    simp only [mapSet, mapGet]
    rw [if_neg (fun hh => h (Eq.symm hh))]
  | cons p rest ih =>
    intro k k' v h
    obtain ⟨k0, v0⟩ := p
    unfold mapSet
    by_cases hk : k0 = k
    · rw [if_pos hk]
      unfold mapGet
      rw [if_neg (fun hh => h (Eq.symm hh)), if_neg (by rw [hk]; exact fun hh => h (Eq.symm hh))]
    · rw [if_neg hk]
      unfold mapGet
      by_cases hk' : k0 = k'
      · rw [if_pos hk', if_pos hk']
      · rw [if_neg hk', if_neg hk']
        exact ih k k' v h

theorem keys_mapSet_subset {α : Type} :
    ∀ (m : List (String × α)) (k : String) (v : α) (x : String),
      x ∈ (mapSet m k v).map Prod.fst → x ∈ m.map Prod.fst ∨ x = k := by
  intro m
  induction m with
  | nil =>
    intro k v x hx
    simp [mapSet] at hx
    exact Or.inr hx
  | cons p rest ih =>
    intro k v x hx
    obtain ⟨k0, v0⟩ := p
    unfold mapSet at hx
    by_cases hk : k0 = k
    · rw [if_pos hk] at hx
      simp only [List.map_cons, List.mem_cons] at hx
      rcases hx with heq | htail
      · exact Or.inr heq
      · exact Or.inl (by simp only [List.map_cons, List.mem_cons]; exact Or.inr htail)
    · rw [if_neg hk] at hx
      simp only [List.map_cons, List.mem_cons] at hx
      rcases hx with heq | htail
      · exact Or.inl (by simp only [List.map_cons, List.mem_cons]; exact Or.inl heq)
      · rcases ih k v x htail with hin | hisk
        · exact Or.inl (by simp only [List.map_cons, List.mem_cons]; exact Or.inr hin)
        · exact Or.inr hisk

theorem nodup_keys_mapSet {α : Type} :
    ∀ (m : List (String × α)) (k : String) (v : α),
      (m.map Prod.fst).Nodup → ((mapSet m k v).map Prod.fst).Nodup := by
  intro m
  induction m with
  | nil => intro k v _; simp [mapSet]
  | cons p rest ih =>
    intro k v hnd
    obtain ⟨k0, v0⟩ := p
    simp only [List.map_cons, List.nodup_cons] at hnd
    unfold mapSet
    by_cases hk : k0 = k
    · rw [if_pos hk]
      simp only [List.map_cons, List.nodup_cons]
      subst hk
      exact hnd
    · rw [if_neg hk]
      simp only [List.map_cons, List.nodup_cons]
      refine ⟨?_, ih k v hnd.2⟩
      intro hcontra
      rcases keys_mapSet_subset rest k v k0 hcontra with hin | hisk
      · exact hnd.1 hin
      · exact hk hisk

theorem nodup_keys_foldSet {α : Type} (key : α → String) :
    ∀ (es : List α) (acc : List (String × α)),
      (acc.map Prod.fst).Nodup →
      ((es.foldl (fun a e => mapSet a (key e) e) acc).map Prod.fst).Nodup := by
  intro es
  induction es with
  | nil => intro acc h; exact h
  | cons e rest ih =>
    intro acc h
    simp only [List.foldl_cons]
    exact ih _ (nodup_keys_mapSet acc (key e) e h)

theorem mapGet_foldSet {α : Type} (key : α → String) :
    ∀ (es : List α) (acc : List (String × α)) (id : String),
      mapGet (es.foldl (fun a e => mapSet a (key e) e) acc) id =
        match lastWith key id es with
        | some e => some e
        | none => mapGet acc id := by
  intro es
  induction es with
  | nil => intro acc id; simp [lastWith]
  | cons e rest ih =>
    intro acc id
    simp only [List.foldl_cons]
    rw [ih]
    cases hl : lastWith key id rest with
    | some x =>
      have hcons : lastWith key id (e :: rest) = some x := by
        unfold lastWith
        rw [hl]
      rw [hcons]
    | none =>
      have hcons : lastWith key id (e :: rest) =
          (if key e = id then some e else none) := by
        unfold lastWith
        rw [hl]
      rw [hcons]
      by_cases hke : key e = id
      · rw [if_pos hke]
        show mapGet (mapSet acc (key e) e) id = some e
        rw [hke, mapGet_mapSet_same]
      · rw [if_neg hke]
        show mapGet (mapSet acc (key e) e) id = mapGet acc id
        exact mapGet_mapSet_other acc (key e) id e (fun hh => hke (Eq.symm hh))

theorem buildEntities_eq {α : Type} (parse : RawRecord → Except String α)
    (key : α → String) :
    ∀ (values : List RawRecord) (acc : List (String × α)),
      buildEntities parse key values acc =
        Except.map (fun es => es.foldl (fun a e => mapSet a (key e) e) acc)
          (parseAllRecords parse values) := by
  intro values
  induction values with
  | nil => intro acc; rfl
  | cons v rest ih =>
    intro acc
    unfold buildEntities parseAllRecords
    cases hv : parse v with
    | error e => rfl
    | ok e =>
      simp only [Except.bind]
      rw [ih]
      cases hr : parseAllRecords parse rest with
      | error err => rfl
      | ok es => rfl

/-- C10: reading a channel (respectively user) list containing several
records with one id produces a mapping whose entry for that id is the entity
parsed from the last such record in input order — later records overwrite
earlier ones via `Map.set` — and the mapping's keys are pairwise distinct,
one entry per distinct id. -/
theorem duplicate_id_last_wins :
    ∀ (fs : FileSystem) (dir : String) (cvals uvals : List RawRecord)
      (cs : List Channel) (us : List User) (cid uid : String),
      (mapGet fs (joinPath dir "channels.json") =
          some (JsonData.array cvals) →
        parseAllRecords parseChannel cvals = Except.ok cs →
        readChannels fs dir = Except.ok (buildFold Channel.id cs)
        ∧ ((buildFold Channel.id cs).map Prod.fst).Nodup
        ∧ mapGet (buildFold Channel.id cs) cid = lastWith Channel.id cid cs)
      ∧ (mapGet fs (joinPath dir "users.json") = some (JsonData.array uvals) →
        parseAllRecords parseUser uvals = Except.ok us →
        readUsers fs dir = Except.ok (buildFold User.id us)
        ∧ ((buildFold User.id us).map Prod.fst).Nodup
        ∧ mapGet (buildFold User.id us) uid = lastWith User.id uid us) := by
  intro fs dir cvals uvals cs us cid uid
  constructor
  · intro hfs hparse
    refine ⟨?_, nodup_keys_foldSet Channel.id cs [] (by simp), ?_⟩
    · unfold readChannels readArrayFromJSON
      rw [hfs]
      simp only [Except.bind]
      rw [buildEntities_eq, hparse]
      rfl
    · unfold buildFold
      rw [mapGet_foldSet]
      cases lastWith Channel.id cid cs with
      | some x => rfl
      | none => rfl
  · intro hfs hparse
    refine ⟨?_, nodup_keys_foldSet User.id us [] (by simp), ?_⟩
    · unfold readUsers readArrayFromJSON
      rw [hfs]
      simp only [Except.bind]
      rw [buildEntities_eq, hparse]
      rfl
    · unfold buildFold
      rw [mapGet_foldSet]
      cases lastWith User.id uid us with
      | some x => rfl
      | none => rfl

/-- C10 witness: a workspace whose channel and user files both carry two
records with one shared id maps that id to the later record's entity, with
singleton key sets. -/
theorem duplicate_id_last_wins_witness :
    mapGet fs10 (joinPath "w" "channels.json") =
      some (JsonData.array [dupRec "C1" "general", dupRec "C1" "random"])
    ∧ parseAllRecords parseChannel
        [dupRec "C1" "general", dupRec "C1" "random"] = Except.ok cs10
    ∧ mapGet fs10 (joinPath "w" "users.json") =
      some (JsonData.array [dupRec "U1" "alice", dupRec "U1" "bob"])
    ∧ parseAllRecords parseUser [dupRec "U1" "alice", dupRec "U1" "bob"] =
      Except.ok us10
    ∧ (readChannels fs10 "w" = Except.ok (buildFold Channel.id cs10)
      ∧ ((buildFold Channel.id cs10).map Prod.fst).Nodup
      ∧ mapGet (buildFold Channel.id cs10) "C1" =
          lastWith Channel.id "C1" cs10)
    ∧ (readUsers fs10 "w" = Except.ok (buildFold User.id us10)
      ∧ ((buildFold User.id us10).map Prod.fst).Nodup
      ∧ mapGet (buildFold User.id us10) "U1" =
          lastWith User.id "U1" us10) :=
  ⟨by decide, by rfl, by decide, by rfl,
   (duplicate_id_last_wins fs10 "w"
     [dupRec "C1" "general", dupRec "C1" "random"]
     [dupRec "U1" "alice", dupRec "U1" "bob"] cs10 us10 "C1" "U1").1
     (by decide) (by rfl),
   (duplicate_id_last_wins fs10 "w"
     [dupRec "C1" "general", dupRec "C1" "random"]
     [dupRec "U1" "alice", dupRec "U1" "bob"] cs10 us10 "C1" "U1").2
     (by decide) (by rfl)⟩

theorem replaceTokens_cons_other (t : Char) (f : List Char → List Char)
    (fuel : Nat) (c : Char) (rest : List Char) (hc : c ≠ '<') :
    replaceTokens t f (fuel + 1) (c :: rest) =
      c :: replaceTokens t f fuel rest := by
  simp [replaceTokens, hc]

theorem replaceTokens_open_nomatch (t : Char) (f : List Char → List Char)
    (fuel : Nat) (c : Char) (rest2 : List Char) (hc : c ≠ t) :
    replaceTokens t f (fuel + 1) ('<' :: c :: rest2) =
      '<' :: replaceTokens t f fuel (c :: rest2) := by
  simp [replaceTokens, hc]

theorem replaceTokens_open_match (t : Char) (f : List Char → List Char)
    (fuel : Nat) (rest2 cap rest3 : List Char)
    (hcap : takeCapture rest2 = some (cap, rest3)) :
    replaceTokens t f (fuel + 1) ('<' :: t :: rest2) =
      f cap ++ replaceTokens t f fuel rest3 := by
  simp [replaceTokens, hcap]

theorem replaceTokens_open_nocap (t : Char) (f : List Char → List Char)
    (fuel : Nat) (rest2 : List Char) (hcap : takeCapture rest2 = none) :
    replaceTokens t f (fuel + 1) ('<' :: t :: rest2) =
      '<' :: t :: replaceTokens t f fuel rest2 := by
  simp [replaceTokens, hcap]

theorem takeCapture_append (id rest : List Char) (hgt : '>' ∉ id)
    (hnl : '\n' ∉ id) :
    takeCapture (id ++ '>' :: rest) = some (id, rest) := by
  induction id with
  | nil => simp [takeCapture]
  | cons c cs ih =>
    have hc1 : c ≠ '>' := fun hh => hgt (hh ▸ List.mem_cons_self c cs)
    have hc2 : c ≠ '\n' := fun hh => hnl (hh ▸ List.mem_cons_self c cs)
    have hgt' : '>' ∉ cs := fun hh => hgt (List.mem_cons_of_mem c hh)
    have hnl' : '\n' ∉ cs := fun hh => hnl (List.mem_cons_of_mem c hh)
    simp only [List.cons_append]
    unfold takeCapture
    rw [if_neg hc1, if_neg hc2, ih hgt' hnl']
    rfl

theorem takeCapture_length :
    ∀ (l cap rest : List Char), takeCapture l = some (cap, rest) →
      cap.length + 1 + rest.length = l.length := by
  intro l
  induction l with
  | nil => intro cap rest h; simp [takeCapture] at h
  | cons c cs ih =>
    intro cap rest h
    unfold takeCapture at h
    by_cases hc1 : c = '>'
    · rw [if_pos hc1] at h
      cases h
      simp only [List.length_nil, List.length_cons]
      omega
    · rw [if_neg hc1] at h
      by_cases hc2 : c = '\n'
      · rw [if_pos hc2] at h
        cases h
      · rw [if_neg hc2] at h
        cases htc : takeCapture cs with
        | none =>
          rw [htc] at h
          simp at h
        | some p =>
          obtain ⟨cap0, rest0⟩ := p
          rw [htc] at h
          have h' : c :: cap0 = cap ∧ rest0 = rest := by
            have h2 : some (c :: cap0, rest0) = some (cap, rest) := h
            simp only [Option.some.injEq, Prod.mk.injEq] at h2
            exact h2
          have hlen := ih cap0 rest0 htc
          rw [← h'.1, ← h'.2]
          simp only [List.length_cons]
          omega

theorem replaceTokens_skip (t : Char) (f : List Char → List Char) :
    ∀ (l1 l2 : List Char) (fuel : Nat), '<' ∉ l1 →
      replaceTokens t f (l1.length + fuel) (l1 ++ l2) =
        l1 ++ replaceTokens t f fuel l2 := by
  intro l1
  induction l1 with
  | nil => intro l2 fuel _; simp
  | cons c cs ih =>
    intro l2 fuel h
    have hc : c ≠ '<' := fun hh => h (hh ▸ List.mem_cons_self c cs)
    have h' : '<' ∉ cs := fun hh => h (List.mem_cons_of_mem c hh)
    have harith : (c :: cs).length + fuel = (cs.length + fuel) + 1 := by
      simp only [List.length_cons]
      omega
    rw [harith, List.cons_append,
      replaceTokens_cons_other t f (cs.length + fuel) c (cs ++ l2) hc,
      ih l2 fuel h']
    rfl

theorem replaceTokens_fuel (t : Char) (f : List Char → List Char) :
    ∀ (bound fuel : Nat) (l : List Char), fuel ≤ bound → l.length ≤ fuel →
      replaceTokens t f fuel l = replaceTokens t f l.length l := by
  intro bound
  induction bound with
  | zero =>
    intro fuel l hfb hlf
    have : fuel = 0 := Nat.le_zero.mp hfb
    subst this
    have : l = [] := List.length_eq_zero.mp (Nat.le_zero.mp hlf)
    subst this
    rfl
  | succ bnd ih =>
    intro fuel l hfb hlf
    cases fuel with
    | zero =>
      have : l = [] := List.length_eq_zero.mp (Nat.le_zero.mp hlf)
      subst this
      rfl
    | succ k =>
      cases l with
      | nil => rfl
      | cons c rest =>
        simp only [List.length_cons] at hlf
        have hrk : rest.length ≤ k := Nat.le_of_succ_le_succ hlf
        have hkb : k ≤ bnd := Nat.le_of_succ_le_succ hfb
        by_cases hc : c = '<'
        · subst hc
          cases rest with
          | nil => rfl
          | cons t' rest2 =>
            simp only [List.length_cons] at hrk ⊢
            have hr2k : rest2.length + 1 ≤ k := hrk
            by_cases ht : t' = t
            · rw [ht]
              cases hcap : takeCapture rest2 with
              | some p =>
                obtain ⟨cap, rest3⟩ := p
                have hlen := takeCapture_length rest2 cap rest3 hcap
                rw [replaceTokens_open_match t f k rest2 cap rest3 hcap,
                  replaceTokens_open_match t f (rest2.length + 1) rest2 cap
                    rest3 hcap]
                rw [ih k rest3 hkb (by omega),
                  ih (rest2.length + 1) rest3 (by omega) (by omega)]
              | none =>
                rw [replaceTokens_open_nocap t f k rest2 hcap,
                  replaceTokens_open_nocap t f (rest2.length + 1) rest2 hcap]
                rw [ih k rest2 hkb (by omega),
                  ih (rest2.length + 1) rest2 (by omega) (by omega)]
            · rw [replaceTokens_open_nomatch t f k t' rest2 ht,
                replaceTokens_open_nomatch t f (rest2.length + 1) t' rest2 ht]
              rw [ih k (t' :: rest2) hkb (by simp; omega),
                ih (rest2.length + 1) (t' :: rest2) (by omega)
                  (by simp)]
        · simp only [List.length_cons]
          rw [replaceTokens_cons_other t f k c rest hc,
            replaceTokens_cons_other t f rest.length c rest hc]
          rw [ih k rest hkb hrk]

theorem replaceNewlines_cons (c : Char) (cs : List Char) :
    replaceNewlines (c :: cs) =
      (if c = '\n' then ['<', 'b', 'r', '>'] else [c]) ++ replaceNewlines cs := by
  by_cases hc : c = '\n'
  · simp [replaceNewlines, hc]
  · simp [replaceNewlines, hc]

theorem replaceNewlines_append :
    ∀ (l1 l2 : List Char),
      replaceNewlines (l1 ++ l2) = replaceNewlines l1 ++ replaceNewlines l2 := by
  intro l1
  induction l1 with
  | nil => intro l2; rfl
  | cons c cs ih =>
    intro l2
    rw [List.cons_append, replaceNewlines_cons, replaceNewlines_cons, ih,
      List.append_assoc]

theorem replaceNewlines_id :
    ∀ (l : List Char), '\n' ∉ l → replaceNewlines l = l := by
  intro l
  induction l with
  | nil => intro _; rfl
  | cons c cs ih =>
    intro h
    have hc : c ≠ '\n' := fun hh => h (hh ▸ List.mem_cons_self c cs)
    unfold replaceNewlines
    rw [if_neg hc, ih (fun hh => h (List.mem_cons_of_mem c hh))]

/-- C4 (amended): in a message body of the form `pre <#id> post` (with the
delimiter characters not occurring in `pre` and `id`, and no newline in
`pre`, `id` or the resolved name), a channel-reference token whose id is in
the channel mapping is replaced by that channel's name wrapped in inline
code with the `#` prefix, while an id absent from the mapping falls back to
the raw channel id wrapped in inline code but with the mention prefix `@`
(markdown.ts line 38), and the rest of the body is transformed unchanged. -/
theorem channel_reference_resolution :
    ∀ (channels : List (String × Channel)) (users : List (String × User))
      (username : String) (uid : Option String) (ts : ℚ) (st : Option String)
      (pre id post : String),
      '<' ∉ pre.data → '\n' ∉ pre.data →
      '<' ∉ id.data → '>' ∉ id.data → '\n' ∉ id.data →
      (∀ ch : Channel, mapGet channels id = some ch → '\n' ∉ ch.name.data) →
      createBody
        { userID := uid, text := pre ++ "<#" ++ id ++ ">" ++ post,
          timeStamp := ts, subtype := st } username channels users =
      pre ++ (match mapGet channels id with
          | some ch => "`#" ++ ch.name ++ "`"
          | none => "`@" ++ id ++ "`") ++
        createBody
          { userID := uid, text := post, timeStamp := ts, subtype := st }
          username channels users := by
  intro channels users username uid ts st pre id post
  intro hpre1 hpre2 hid1 hid2 hid3 hname
  set P := pre.data with hP
  set I := id.data with hI
  set Q := post.data with hQ
  set mrepl := mentionText users username with hmrepl
  set crepl := channelText channels with hcrepl
  have hdata : (pre ++ "<#" ++ id ++ ">" ++ post).data =
      P ++ ('<' :: '#' :: (I ++ '>' :: Q)) := by
    have h1 : ("<#" : String).data = ['<', '#'] := rfl
    have h2 : (">" : String).data = ['>'] := rfl
    simp [String.data_append, h1, h2]
  set Q1 := replaceTokens '@' mrepl Q.length Q with hQ1
  have hInner : replaceTokens '@' mrepl ((I.length + 2 + Q.length) + 1)
      ('<' :: '#' :: (I ++ '>' :: Q)) =
      '<' :: '#' :: (I ++ '>' :: Q1) := by
    rw [replaceTokens_open_nomatch '@' mrepl (I.length + 2 + Q.length) '#'
      (I ++ '>' :: Q) (by decide)]
    have hshape : '#' :: (I ++ '>' :: Q) = ('#' :: (I ++ ['>'])) ++ Q := by
      simp
    have hlen : I.length + 2 + Q.length =
        ('#' :: (I ++ ['>'])).length + Q.length := by
      simp only [List.length_cons, List.length_append, List.length_nil]
    rw [hshape, hlen, replaceTokens_skip '@' mrepl ('#' :: (I ++ ['>'])) Q
      Q.length (by
        intro hcontra
        rcases List.mem_cons.mp hcontra with heq | htail
        · cases heq
        · rcases List.mem_append.mp htail with hin | hsing
          · exact hid1 hin
          · simp at hsing)]
    simp [hQ1]
  have hMention : replaceTokens '@' mrepl
      (P ++ ('<' :: '#' :: (I ++ '>' :: Q))).length
      (P ++ ('<' :: '#' :: (I ++ '>' :: Q))) =
      P ++ ('<' :: '#' :: (I ++ '>' :: Q1)) := by
    have hlen : (P ++ ('<' :: '#' :: (I ++ '>' :: Q))).length =
        P.length + ((I.length + 2 + Q.length) + 1) := by
      simp
      omega
    rw [hlen, replaceTokens_skip '@' mrepl P _ _ hpre1, hInner]
  set Q2 := replaceTokens '#' crepl Q1.length Q1 with hQ2
  have hChannel : replaceTokens '#' crepl
      (P ++ ('<' :: '#' :: (I ++ '>' :: Q1))).length
      (P ++ ('<' :: '#' :: (I ++ '>' :: Q1))) =
      P ++ (crepl I ++ Q2) := by
    have hlen : (P ++ ('<' :: '#' :: (I ++ '>' :: Q1))).length =
        P.length + ((I.length + 2 + Q1.length) + 1) := by
      simp
      omega
    rw [hlen, replaceTokens_skip '#' crepl P _ _ hpre1]
    rw [replaceTokens_open_match '#' crepl (I.length + 2 + Q1.length)
      (I ++ '>' :: Q1) I Q1 (takeCapture_append I Q1 hid2 hid3)]
    rw [replaceTokens_fuel '#' crepl (I.length + 2 + Q1.length)
      (I.length + 2 + Q1.length) Q1 (Nat.le_refl _) (by omega)]
  have hcreplI : crepl I = (match mapGet channels id with
      | some ch => ("`#" ++ ch.name ++ "`" : String)
      | none => ("`@" ++ id ++ "`" : String)).data := by
    rw [hcrepl]
    unfold channelText
    have hmkI : String.mk I = id := rfl
    rw [hmkI]
    cases hmg : mapGet channels id with
    | some ch =>
      have e1 : ("`#" ++ ch.name ++ "`" : String).data =
          '`' :: '#' :: ch.name.data ++ ['`'] := by
        simp [String.data_append]
      rw [e1]
    | none =>
      have e2 : ("`@" ++ id ++ "`" : String).data =
          '`' :: '@' :: I ++ ['`'] := by
        simp [String.data_append]
      rw [e2]
  have hRNcrepl : replaceNewlines (crepl I) = crepl I := by
    apply replaceNewlines_id
    rw [hcrepl]
    unfold channelText
    have hmkI : String.mk I = id := rfl
    rw [hmkI]
    cases hmg : mapGet channels id with
    | some ch =>
      intro hcontra
      simp at hcontra
      exact hname ch hmg hcontra
    | none =>
      intro hcontra
      simp at hcontra
      exact hid3 hcontra
  simp only [createBody]
  rw [← hmrepl, ← hcrepl, ← hQ]
  rw [hdata, hMention, ← hQ1, hChannel, ← hQ2]
  rw [replaceNewlines_append, replaceNewlines_append,
    replaceNewlines_id P hpre2, hRNcrepl]
  have hXR : pre ++ (match mapGet channels id with
      | some ch => ("`#" ++ ch.name ++ "`" : String)
      | none => ("`@" ++ id ++ "`" : String)) ++
      String.mk (replaceNewlines Q2) =
      String.mk (P ++ ((match mapGet channels id with
        | some ch => ("`#" ++ ch.name ++ "`" : String)
        | none => ("`@" ++ id ++ "`" : String)).data ++
        replaceNewlines Q2)) := by
    apply String.ext
    simp only [String.data_append, hP, List.append_assoc]
  rw [hXR, hcreplI]

/-- C4 witness: the amended channel-reference behavior at a concrete body
`go <#C1> now` (resolved against `channelsW`) and at the same body with an
empty channel mapping (the `@`-prefixed fallback). -/
theorem channel_reference_resolution_witness :
    (('<' ∉ ("go " : String).data) ∧ ('\n' ∉ ("go " : String).data) ∧
      ('<' ∉ ("C1" : String).data) ∧ ('>' ∉ ("C1" : String).data) ∧
      ('\n' ∉ ("C1" : String).data))
    ∧ createBody
        { userID := none, text := "go " ++ "<#" ++ "C1" ++ ">" ++ " now",
          timeStamp := 0, subtype := none } "bob" channelsW [] =
      "go " ++ (match mapGet channelsW "C1" with
          | some ch => "`#" ++ ch.name ++ "`"
          | none => "`@" ++ "C1" ++ "`") ++
        createBody
          { userID := none, text := " now", timeStamp := 0, subtype := none }
          "bob" channelsW []
    ∧ createBody
        { userID := none, text := "go " ++ "<#" ++ "C1" ++ ">" ++ " now",
          timeStamp := 0, subtype := none } "bob" [] [] =
      "go " ++ (match mapGet ([] : List (String × Channel)) "C1" with
          | some ch => "`#" ++ ch.name ++ "`"
          | none => "`@" ++ "C1" ++ "`") ++
        createBody
          { userID := none, text := " now", timeStamp := 0, subtype := none }
          "bob" [] [] :=
  ⟨⟨by decide, by decide, by decide, by decide, by decide⟩,
   channel_reference_resolution channelsW [] "bob" none 0 none "go " "C1"
     " now" (by decide) (by decide) (by decide) (by decide) (by decide)
     (by
       intro ch hch
       simp [mapGet, channelsW] at hch
       rw [← hch]
       decide),
   channel_reference_resolution [] [] "bob" none 0 none "go " "C1" " now"
     (by decide) (by decide) (by decide) (by decide) (by decide)
     (by
       intro ch hch
       simp [mapGet] at hch)⟩

end Slack

